import Mathlib

/-!
Verification of the `vue-tsc-plus` write-interception pipeline (`src/index.ts`).

The development shallowly embeds the module: JS strings are modelled as Lean
`String`s (ASCII assumption, one `Char` per UTF-16 unit), the `node:path`
helpers are modelled for normalized POSIX paths, external collaborators
(`fs` primitives, `JSON.parse`, `JSON.stringify`, `vue-simple-compiler`) are
fields of an environment record, and the wrapped `fs.writeSync` is given an
effect-trace semantics listing every native call it performs.
-/

set_option autoImplicit false

namespace VueTscPlus

/-! ## String helpers (models of JS string primitives, ASCII inputs) -/

/-- Model of JS `s.slice(0, -n)`: drop the last `n` characters. -/
def strDropRight (s : String) (n : Nat) : String := ⟨s.data.take (s.data.length - n)⟩

/-- Model of JS `s.endsWith(p)`. -/
def strEndsWith (s p : String) : Bool := p.data.isSuffixOf s.data

/-- Model of JS `s.startsWith(p)`. -/
def strStartsWith (s p : String) : Bool := p.data.isPrefixOf s.data

/-- The placeholder test `filePath.endsWith('.vue.js')` (src/index.ts:110). -/
def endsWithVueJs (s : String) : Bool := strEndsWith s ".vue.js"

/-! ## node:path model (normalized POSIX paths, no `.`/`..` rewriting) -/

/-- `path.dirname` on raw character data: drop the final path segment.
Matches node for normalized paths without a trailing slash. -/
def dirnameData (l : List Char) : List Char :=
  match l.reverse.dropWhile (· ≠ '/') with
  | [] => ['.']
  | [_] => ['/']
  | _ :: rest => rest.reverse

/-- Model of `path.dirname`. -/
def pathDirname (s : String) : String := ⟨dirnameData s.data⟩

/-- Model of `path.basename`. -/
def pathBasename (s : String) : String := ⟨(s.data.reverse.takeWhile (· ≠ '/')).reverse⟩

/-- Model of `path.join a b` for already normalized arguments. -/
def pathJoin (a b : String) : String :=
  if a.data = [] then b
  else if b.data = [] then a
  else if a.data.getLast? = some '/' then ⟨a.data ++ b.data⟩
  else ⟨a.data ++ '/' :: b.data⟩

/-- Model of `path.resolve base s` for a single step: an absolute `s` wins,
otherwise `s` is appended to `base`. -/
def pathResolve (base s : String) : String :=
  if s.data.head? = some '/' then s else pathJoin base s

/-- Split a path into its `/`-separated segments, dropping empty segments.
`acc` holds the (reversed) characters of the segment currently being read. -/
def splitSegsAux : List Char → List Char → List (List Char)
  | [], acc => if acc = [] then [] else [acc.reverse]
  | c :: cs, acc =>
    if c = '/' then
      if acc = [] then splitSegsAux cs [] else acc.reverse :: splitSegsAux cs []
    else splitSegsAux cs (c :: acc)

def splitSegsData (l : List Char) : List (List Char) := splitSegsAux l []

/-- Join segments with `/` (no leading slash). -/
def joinSegsData : List (List Char) → List Char
  | [] => []
  | [s] => s
  | s :: rest => s ++ '/' :: joinSegsData rest

/-- A relative path built from the given segments. -/
def segsToPath (segs : List (List Char)) : String := ⟨joinSegsData segs⟩

/-- Drop the longest common prefix of two segment lists. -/
def dropCommonSegs : List (List Char) → List (List Char) →
    List (List Char) × List (List Char)
  | f :: fs, t :: ts =>
    if f = t then dropCommonSegs fs ts else (f :: fs, t :: ts)
  | fs, ts => (fs, ts)

/-- Model of `path.relative f t`: drop the common prefix, then climb with `..`
for every remaining segment of `f` and descend into the rest of `t`. -/
def pathRelative (f t : String) : String :=
  let p := dropCommonSegs (splitSegsData f.data) (splitSegsData t.data)
  ⟨joinSegsData (p.1.map (fun _ => ['.', '.']) ++ p.2)⟩

/-! ## JSON value model (output of the external `JSON.parse`) -/

inductive Json where
  | null
  | bool (b : Bool)
  | num (n : Int)
  | str (s : String)
  | arr (xs : List Json)
  | obj (fields : List (String × Json))

/-- JS property access `v[k]` for the accesses the module performs:
objects yield their first binding for `k`, every other value yields
`undefined` (`none`).  (`null` is special-cased at the use site, where JS
would throw.) -/
def jMember : Json → String → Option Json
  | .obj fields, k => (fields.find? (fun f => f.1 = k)).map (·.2)
  | _, _ => none

/-- JS truthiness of a JSON value. -/
def jTruthy : Json → Bool
  | .null => false
  | .bool b => b
  | .num n => n ≠ 0
  | .str s => s ≠ ""
  | .arr _ => true
  | .obj _ => true

/-- JS `v === true` on an optional JSON value. -/
def jIsTrue : Option Json → Bool
  | some (.bool true) => true
  | _ => false

/-! ## Comment stripping

Model of `tsconfigContent.replace(/\/\*[\s\S]*?\*\/|\/\/.*\u{2f}/g, '')`
(src/index.ts:36, global leftmost scan, block alternative first, lazy body,
`.` stopping at line terminators). -/

/-- Find the rest of the input after the first `*/`, if any (the lazy
`[\s\S]*?\*\/` match). -/
def findClose : List Char → Option (List Char)
  | '*' :: '/' :: rest => some rest
  | _ :: rest => findClose rest
  | [] => none

/-- Drop characters up to (excluding) the next line terminator (`//.*`). -/
def dropLine : List Char → List Char
  | [] => []
  | c :: rest => if c = '\n' ∨ c = '\r' then c :: rest else dropLine rest

/-- One leftmost-scan pass of the comment-removing replace.  The fuel is the
input length; every step consumes at least one character, so it never runs
out when seeded with the length. -/
def stripCommentsAux : Nat → List Char → List Char
  | 0, l => l
  | _ + 1, [] => []
  | fuel + 1, '/' :: '*' :: rest =>
    match findClose rest with
    | some rest' => stripCommentsAux fuel rest'
    | none => '/' :: stripCommentsAux fuel ('*' :: rest)
  | fuel + 1, '/' :: '/' :: rest => stripCommentsAux fuel (dropLine rest)
  | fuel + 1, c :: rest => c :: stripCommentsAux fuel rest

def stripComments (s : String) : String := ⟨stripCommentsAux s.data.length s.data⟩

/-! ## Config resolver (src/index.ts:13-56)

`findTsConfig` walks `dir = path.dirname(filePath)` upward while
`dir !== path.dirname(dir)`, probing `path.join(dir, 'tsconfig.json')`.
The loop is embedded with explicit fuel; `mDir` bounds the number of
iterations (each step strictly decreases it, see `mDirData_lt`). -/

/-- Iteration bound for the upward directory walk. -/
def mDirData (l : List Char) : Nat :=
  l.length + (if dirnameData l = l then 0 else 2)

def mDir (s : String) : Nat := mDirData s.data

/-- The `while (dir !== path.dirname(dir))` loop body of `findTsConfig`. -/
def findTsConfigLoop (ex : String → Bool) : Nat → String → Option String
  | 0, _ => none
  | fuel + 1, dir =>
    if dir = pathDirname dir then none
    else if ex (pathJoin dir "tsconfig.json") then some (pathJoin dir "tsconfig.json")
    else findTsConfigLoop ex fuel (pathDirname dir)

/-- `findTsConfig` (src/index.ts:13): `ex` models `fs.existsSync`. -/
def findTsConfig (ex : String → Bool) (filePath : String) : Option String :=
  findTsConfigLoop ex (mDir (pathDirname filePath)) (pathDirname filePath)

/-- The directories the walk visits, in order (a specification device for
the walk; same fuel pattern as `findTsConfigLoop`). -/
def walkChainLoop : Nat → String → List String
  | 0, _ => []
  | fuel + 1, dir =>
    if dir = pathDirname dir then [] else dir :: walkChainLoop fuel (pathDirname dir)

def walkChain (dir : String) : List String := walkChainLoop (mDir dir) dir

/-- The settings record cached per tsconfig path (src/index.ts:11). -/
structure TsPaths where
  outDir : String
  rootDir : String
  sourceMap : Bool
deriving DecidableEq

abbrev Cache := List (String × TsPaths)

def cacheLookup (c : Cache) (k : String) : Option TsPaths :=
  (List.find? (fun e => e.1 = k) c).map (·.2)

def cacheInsert (c : Cache) (k : String) (v : TsPaths) : Cache := (k, v) :: c

/-! ## External collaborators and the environment record -/

/-- A `writeSync` payload: `typeof data === 'string'` or anything else. -/
inductive Data where
  | str (s : String)
  | buf

/-- Compiler options handed to `vue-simple-compiler` (src/index.ts:128-141).
The enum-valued TypeScript options are modelled as their names. -/
structure CompileOptions where
  root : String
  filename : String
  autoImportCss : Bool
  autoResolveImports : Bool
  isProd : Bool
  target : String
  moduleFormat : String
  jsx : String
  sourceMap : Bool
deriving DecidableEq

def mkCompileOptions (root filename : String) (sourceMap : Bool) : CompileOptions :=
  { root := root, filename := filename, autoImportCss := true,
    autoResolveImports := true, isProd := true, target := "ES2020",
    moduleFormat := "ESNext", jsx := "ReactJSX", sourceMap := sourceMap }

structure JsOut where
  code : String
  sourceMap : Option Json

structure CssFile where
  filename : String
  code : String
  sourceMap : Option Json

/-- Result of the external `compile` (vue-simple-compiler). -/
structure CompileResult where
  js : JsOut
  css : List CssFile
  errors : List String

/-- One native call performed by the wrapped `writeSync`. -/
inductive Effect where
  | openW (p : String) (fd : Nat)
  | writeFd (fd : Nat) (data : Data) (rest : List Int)
  | closeFd (fd : Nat)

/-- The world outside the module: native `fs` primitives (which may throw,
modelled with `Except`), `JSON.parse` / `JSON.stringify` and the Vue SFC
compiler.  A fixed `Env` models one single-threaded run with a stable
filesystem. -/
structure Env where
  nativeOpen : String → Except String Nat
  nativeWrite : Nat → Data → List Int → Except String Nat
  nativeClose : Nat → Except String Unit
  fExists : String → Bool
  readFile : String → Except String String
  parse : String → Except String Json
  stringify : Json → String
  compile : String → CompileOptions → Except String CompileResult

/-- `compilerOptions.outDir ? path.resolve(projectRoot, ...) : projectRoot`
(and likewise `rootDir`): JS truthiness decides, and `path.resolve` applied
to a truthy non-string throws (`none`). -/
def resolveDirOpt (root : String) (v : Option Json) : Option String :=
  match v with
  | none => some root
  | some j =>
    if jTruthy j then
      match j with
      | .str s => some (pathResolve root s)
      | _ => none
    else some root

/-- The read-strip-parse-extract part of `getTsConfigPaths`
(src/index.ts:33-55); any thrown step yields `none` (the catch). -/
def getTsConfigPathsFile (env : Env) (tsconfigPath : String) : Option TsPaths :=
  match env.readFile tsconfigPath with
  | .error _ => none
  | .ok tsconfigContent =>
    match env.parse (stripComments tsconfigContent) with
    | .error _ => none
    | .ok tsconfig =>
      match tsconfig with
      | .null => none
      | _ =>
        let co := match jMember tsconfig "compilerOptions" with
          | some v => if jTruthy v then v else Json.obj []
          | none => Json.obj []
        let projectRoot := pathDirname tsconfigPath
        match resolveDirOpt projectRoot (jMember co "outDir") with
        | none => none
        | some outDir =>
          match resolveDirOpt projectRoot (jMember co "rootDir") with
          | none => none
          | some rootDir =>
            some { outDir := outDir, rootDir := rootDir,
                   sourceMap := jIsTrue (jMember co "sourceMap") }

/-- `getTsConfigPaths` (src/index.ts:25) with the module-level cache
threaded through. -/
def getTsConfigPaths (env : Env) (c : Cache) (filePath : String) :
    Option TsPaths × Cache :=
  match findTsConfig env.fExists filePath with
  | none => (none, c)
  | some tsconfigPath =>
    match cacheLookup c tsconfigPath with
    | some r => (some r, c)
    | none =>
      match getTsConfigPathsFile env tsconfigPath with
      | some r => (some r, cacheInsert c tsconfigPath r)
      | none => (none, c)

/-- The cache-free resolution (what a miss computes). -/
def getTsConfigPathsPure (env : Env) (filePath : String) : Option TsPaths :=
  (findTsConfig env.fExists filePath).bind (getTsConfigPathsFile env)

/-- `resolveVueFilePath` (src/index.ts:58-78). -/
def resolveVueFilePath (env : Env) (c : Cache) (jsFilePath : String) :
    Option String × Cache :=
  let pc := getTsConfigPaths env c jsFilePath
  match pc.1 with
  | none => (some (strDropRight jsFilePath 3), pc.2)
  | some paths =>
    if strStartsWith jsFilePath paths.outDir then
      (some (strDropRight
        (pathJoin paths.rootDir (pathRelative paths.outDir jsFilePath)) 3), pc.2)
    else (some (strDropRight jsFilePath 3), pc.2)

/-- `shouldGenerateSourceMap` (src/index.ts:80-83). -/
def shouldGenerateSourceMap (env : Env) (c : Cache) (jsFilePath : String) :
    Bool × Cache :=
  let pc := getTsConfigPaths env c jsFilePath
  (match pc.1 with
   | some paths => paths.sourceMap
   | none => true, pc.2)

/-! ## The open-handle table (src/index.ts:8, 85-100)

`fs.openSync` records `fd -> path` after the native open succeeds and only
when the first argument was a string; `fs.closeSync` deletes the entry
before delegating. -/

abbrev FdTable := List (Nat × String)

def lookupFd (t : FdTable) (fd : Nat) : Option String :=
  (List.find? (fun e => e.1 = fd) t).map (·.2)

def deleteFd (t : FdTable) (fd : Nat) : FdTable :=
  List.filter (fun e => e.1 ≠ fd) t

/-- JS `Map.set`. -/
def setFd (t : FdTable) (fd : Nat) (p : String) : FdTable :=
  (fd, p) :: deleteFd t fd

/-- First argument of `fs.openSync`: a path string or any non-string value. -/
inductive OpenArg where
  | path (p : String)
  | other

/-- A table-relevant call observed by the wrappers: an open (with the native
result — on a throw nothing is recorded) or a close. -/
inductive FdEvent where
  | openEv (arg : OpenArg) (res : Except String Nat)
  | closeEv (fd : Nat)

/-- Table update of the wrapped `fs.openSync` (src/index.ts:86-93). -/
def openSyncTable (t : FdTable) (arg : OpenArg) (res : Except String Nat) : FdTable :=
  match res, arg with
  | .ok fd, .path p => setFd t fd p
  | _, _ => t

/-- Table update of the wrapped `fs.closeSync` (src/index.ts:96-100): the
entry is deleted before delegating, so also when the native close throws. -/
def closeSyncTable (t : FdTable) (fd : Nat) : FdTable := deleteFd t fd

def stepFdEvent (t : FdTable) : FdEvent → FdTable
  | .openEv arg res => openSyncTable t arg res
  | .closeEv fd => closeSyncTable t fd

/-- The table after a whole history of opens and closes. -/
def runFdTrace (es : List FdEvent) : FdTable := es.foldl stepFdEvent []

/-! ## The wrapped `fs.writeSync` (src/index.ts:102-198) -/

/-- Module state: the two module-level maps. -/
structure MState where
  fdToPath : FdTable
  tsconfigCache : Cache

/-- `return nativeWriteSync(...args)`: the native write with the original
arguments, together with its effect when it succeeds. -/
def delegateWrite (env : Env) (fd : Nat) (data : Data) (rest : List Int) :
    List Effect × Except String Nat :=
  match env.nativeWrite fd data rest with
  | .error e => ([], .error e)
  | .ok n => ([.writeFd fd data rest], .ok n)

/-- An independent artifact write: `nativeOpenSync(p, 'w')`,
`nativeWriteSync(fd, content)`, `nativeCloseSync(fd)` (e.g.
src/index.ts:160-162). -/
def writeArtifact (env : Env) (p : String) (content : String) :
    Except String Unit × List Effect :=
  match env.nativeOpen p with
  | .error e => (.error e, [])
  | .ok fd =>
    match env.nativeWrite fd (.str content) [] with
    | .error e => (.error e, [.openW p fd])
    | .ok _ =>
      match env.nativeClose fd with
      | .error e => (.error e, [.openW p fd, .writeFd fd (.str content) []])
      | .ok _ => (.ok (), [.openW p fd, .writeFd fd (.str content) [], .closeFd fd])

/-- The `for (const cssFile of result.css)` loop (src/index.ts:166-181). -/
def writeCssFiles (env : Env) (filePath : String) (sourceMap : Bool) :
    List CssFile → Except String Unit × List Effect
  | [] => (.ok (), [])
  | cssFile :: rest =>
    let cssPath := pathResolve (pathDirname filePath) cssFile.filename
    let cssFileName := pathBasename cssPath
    match (if sourceMap then cssFile.sourceMap else none) with
    | some m =>
      let cssCode := cssFile.code ++ "\n/*# sourceMappingURL=" ++ cssFileName ++ ".map */"
      let w1 := writeArtifact env (cssPath ++ ".map") (env.stringify m)
      match w1.1 with
      | .error e => (.error e, w1.2)
      | .ok _ =>
        let w2 := writeArtifact env cssPath cssCode
        match w2.1 with
        | .error e => (.error e, w1.2 ++ w2.2)
        | .ok _ =>
          let w3 := writeCssFiles env filePath sourceMap rest
          (w3.1, w1.2 ++ w2.2 ++ w3.2)
    | none =>
      let w2 := writeArtifact env cssPath cssFile.code
      match w2.1 with
      | .error e => (.error e, w2.2)
      | .ok _ =>
        let w3 := writeCssFiles env filePath sourceMap rest
        (w3.1, w2.2 ++ w3.2)

/-- Outcome of the `try` block: an executed `return` (src/index.ts:149, 185)
or falling past the `if (fs.existsSync(...))`. -/
inductive TryOutcome where
  | ret (n : Nat)
  | fallthrough

/-- CSS writes followed by the substituted script write
(src/index.ts:166-185), after the optional script-map write produced
effects `es0`. -/
def emitOutputs (env : Env) (c1 : Cache) (fd : Nat) (rest : List Int)
    (filePath jsCode : String) (sourceMap : Bool) (css : List CssFile)
    (es0 : List Effect) : Except String TryOutcome × Cache × List Effect :=
  let w2 := writeCssFiles env filePath sourceMap css
  match w2.1 with
  | .error e => (.error e, c1, es0 ++ w2.2)
  | .ok _ =>
    match env.nativeWrite fd (.str jsCode) rest with
    | .error e => (.error e, c1, es0 ++ w2.2)
    | .ok n => (.ok (.ret n), c1, es0 ++ w2.2 ++ [.writeFd fd (.str jsCode) rest])

/-- The `try` block (src/index.ts:120-186): existence check, read, compile,
diagnostics gate, artifact writes, substituted write.  Any thrown step
surfaces as `.error` with the effects performed up to that point. -/
def tryBody (env : Env) (c : Cache) (fd : Nat) (data : String) (rest : List Int)
    (filePath vueFilePath : String) : Except String TryOutcome × Cache × List Effect :=
  if env.fExists vueFilePath then
    match env.readFile vueFilePath with
    | .error e => (.error e, c, [])
    | .ok vueCode =>
      let srcDir := pathDirname vueFilePath
      let filename := pathBasename vueFilePath
      let smc := shouldGenerateSourceMap env c filePath
      let sourceMap := smc.1
      let c1 := smc.2
      match env.compile vueCode (mkCompileOptions srcDir filename sourceMap) with
      | .error e => (.error e, c1, [])
      | .ok result =>
        if result.errors = [] then
          let jsFileName := pathBasename filePath
          match (if sourceMap then result.js.sourceMap else none) with
          | some m =>
            let jsCode := result.js.code ++ "\n//# sourceMappingURL=" ++ jsFileName ++ ".map"
            let w1 := writeArtifact env (filePath ++ ".map") (env.stringify m)
            match w1.1 with
            | .error e => (.error e, c1, w1.2)
            | .ok _ => emitOutputs env c1 fd rest filePath jsCode sourceMap result.css w1.2
          | none => emitOutputs env c1 fd rest filePath result.js.code sourceMap result.css []
        else
          -- `if (result.errors.length > 0)`: log and write the original data
          match env.nativeWrite fd (.str data) rest with
          | .error e => (.error e, c1, [])
          | .ok n => (.ok (.ret n), c1, [.writeFd fd (.str data) rest])
  else (.ok .fallthrough, c, [])

/-- The wrapped `fs.writeSync` (src/index.ts:103-198), returning the updated
module state, the native calls performed, and the wrapped call's own result
(`.error` when the call itself throws). -/
def wrappedWriteSync (env : Env) (st : MState) (fd : Nat) (data : Data)
    (rest : List Int) : MState × List Effect × Except String Nat :=
  match lookupFd st.fdToPath fd with
  | some filePath =>
    match data with
    | .str s =>
      if endsWithVueJs filePath then
        let rc := resolveVueFilePath env st.tsconfigCache filePath
        let st1 : MState := { st with tsconfigCache := rc.2 }
        match rc.1 with
        | none =>
          -- `if (!vueFilePath)` with a null result: log and delegate
          (st1, delegateWrite env fd data rest)
        | some vueFilePath =>
          if vueFilePath = "" then
            -- `if (!vueFilePath)` with an empty (JS-falsy) string
            (st1, delegateWrite env fd data rest)
          else
            let tb := tryBody env rc.2 fd s rest filePath vueFilePath
            let st2 : MState := { st with tsconfigCache := tb.2.1 }
            match tb.1 with
            | .ok (.ret n) => (st2, tb.2.2, .ok n)
            | .ok .fallthrough =>
              let d := delegateWrite env fd data rest
              (st2, tb.2.2 ++ d.1, d.2)
            | .error _ =>
              -- the catch (src/index.ts:187-194): log, fall through to 197
              let d := delegateWrite env fd data rest
              (st2, tb.2.2 ++ d.1, d.2)
      else (st, delegateWrite env fd data rest)
    | .buf => (st, delegateWrite env fd data rest)
  | none => (st, delegateWrite env fd data rest)

example : pathDirname "/a/b.vue.js" = "/a" := rfl
example : pathDirname "/a" = "/" := rfl
example : pathDirname "/" = "/" := rfl
example : pathDirname "dist" = "." := rfl
example : pathBasename "/a/b.vue.js" = "b.vue.js" := rfl
example : pathJoin "/a" "tsconfig.json" = "/a/tsconfig.json" := rfl
example : pathRelative "/p/dist" "/p/dist/a/Foo.vue.js" = "a/Foo.vue.js" := rfl
example : pathRelative "/p/dist" "/p/distx/Foo.vue.js" = "../distx/Foo.vue.js" := rfl
example : strDropRight "/p/src/a/Foo.vue.js" 3 = "/p/src/a/Foo.vue" := rfl
example : stripComments "a /* x */ b // c\nd" = "a  b \nd" := rfl
example : stripComments "a /* x" = "a /* x" := rfl
example :
    findTsConfig (fun p => p == "/p/tsconfig.json") "/p/dist/a/Foo.vue.js" =
      some "/p/tsconfig.json" := rfl
example : findTsConfig (fun p => p == "/tsconfig.json") "/a/b.vue.js" = none := rfl
example : walkChain "/p/dist/a" = ["/p/dist/a", "/p/dist", "/p"] := rfl

/-- A concrete run used as a sanity check of the whole pipeline. -/
def sampleTsConfigContent : String :=
  "\x7b \"compilerOptions\": \x7b \"outDir\": \"dist\", \"rootDir\": \"src\", \"sourceMap\": true \x7d \x7d"

def sampleTsConfigJson : Json :=
  Json.obj [("compilerOptions", Json.obj
    [("outDir", Json.str "dist"), ("rootDir", Json.str "src"),
     ("sourceMap", Json.bool true)])]

/-- A minimal environment: a filesystem-existence oracle and nothing else. -/
def trivEnv (ex : String → Bool) : Env where
  nativeOpen := fun _ => .ok 0
  nativeWrite := fun _ _ _ => .ok 0
  nativeClose := fun _ => .ok ()
  fExists := ex
  readFile := fun _ => .error "ENOENT"
  parse := fun _ => .error "SyntaxError"
  stringify := fun _ => ""
  compile := fun _ _ => .error "unused"

def sampleEnv : Env where
  nativeOpen := fun _ => .ok 9
  nativeWrite := fun _ _ _ => .ok 1
  nativeClose := fun _ => .ok ()
  fExists := fun p => p == "/p/tsconfig.json" || p == "/p/src/Foo.vue"
  readFile := fun p =>
    if p = "/p/tsconfig.json" then .ok sampleTsConfigContent
    else if p = "/p/src/Foo.vue" then .ok "<template/>"
    else .error "ENOENT"
  parse := fun s =>
    if s = stripComments sampleTsConfigContent then .ok sampleTsConfigJson
    else .error "SyntaxError"
  stringify := fun _ => "SM"
  compile := fun code _ =>
    if code = "<template/>" then
      .ok { js := { code := "JSCODE", sourceMap := some (Json.str "m") },
            css := [{ filename := "Foo.css", code := "CSS", sourceMap := none }],
            errors := [] }
    else .error "unexpected source"

example :
    wrappedWriteSync sampleEnv ⟨[(5, "/p/dist/Foo.vue.js")], []⟩ 5 (.str "orig") [0] =
      (⟨[(5, "/p/dist/Foo.vue.js")],
        [("/p/tsconfig.json", ⟨"/p/dist", "/p/src", true⟩)]⟩,
       [.openW "/p/dist/Foo.vue.js.map" 9, .writeFd 9 (.str "SM") [], .closeFd 9,
        .openW "/p/dist/Foo.css" 9, .writeFd 9 (.str "CSS") [], .closeFd 9,
        .writeFd 5 (.str "JSCODE\n//# sourceMappingURL=Foo.vue.js.map") [0]],
       .ok 1) := by
  rfl

/-! ## Helper lemmas -/

theorem jIsTrue_iff (v : Option Json) : jIsTrue v = true ↔ v = some (Json.bool true) := by
  cases v with
  | none => simp [jIsTrue]
  | some j =>
    cases j with
    | bool b => cases b <;> simp [jIsTrue]
    | _ => simp [jIsTrue]

theorem lookupFd_cons (e : Nat × String) (t : FdTable) (fd : Nat) :
    lookupFd (e :: t) fd = if e.1 = fd then some e.2 else lookupFd t fd := by
  by_cases h : e.1 = fd <;> simp [lookupFd, List.find?_cons, h]

theorem deleteFd_cons (e : Nat × String) (t : FdTable) (fd' : Nat) :
    deleteFd (e :: t) fd' = if e.1 = fd' then deleteFd t fd' else e :: deleteFd t fd' := by
  by_cases h : e.1 = fd' <;> simp [deleteFd, List.filter_cons, h]

theorem lookupFd_deleteFd (t : FdTable) (fd fd' : Nat) :
    lookupFd (deleteFd t fd') fd = if fd = fd' then none else lookupFd t fd := by
  induction t with
  | nil => simp [lookupFd, deleteFd]
  | cons e t ih =>
    rw [deleteFd_cons]
    by_cases h1 : e.1 = fd'
    · rw [if_pos h1, ih]
      by_cases h2 : fd = fd'
      · rw [if_pos h2, if_pos h2]
      · rw [if_neg h2, if_neg h2, lookupFd_cons,
          if_neg (fun hh : e.1 = fd => h2 (hh ▸ h1))]
    · rw [if_neg h1, lookupFd_cons, lookupFd_cons, ih]
      by_cases h2 : e.1 = fd
      · have h3 : ¬ fd = fd' := fun hh => h1 (h2.trans hh)
        rw [if_pos h2, if_neg h3, if_pos h2]
      · rw [if_neg h2, if_neg h2]

theorem lookupFd_setFd (t : FdTable) (fd' : Nat) (p : String) (fd : Nat) :
    lookupFd (setFd t fd' p) fd = if fd = fd' then some p else lookupFd t fd := by
  rw [setFd, lookupFd_cons, lookupFd_deleteFd]
  by_cases h : fd = fd'
  · rw [if_pos h.symm, if_pos h]
  · rw [if_neg (fun hh : fd' = fd => h hh.symm), if_neg h, if_neg h]

/-- Whether an open/close event manipulates the table entry of `fd`. -/
def touchesFd (fd : Nat) : FdEvent → Bool
  | .openEv (.path _) (.ok fd') => fd' == fd
  | .openEv _ _ => false
  | .closeEv fd' => fd' == fd

/-- The table entry a touching event installs (`none` for a close). -/
def fdEventEntry : FdEvent → Option String
  | .openEv (.path p) (.ok _) => some p
  | _ => none

theorem lookupFd_stepFdEvent (t : FdTable) (e : FdEvent) (fd : Nat) :
    lookupFd (stepFdEvent t e) fd =
      if touchesFd fd e then fdEventEntry e else lookupFd t fd := by
  cases e with
  | openEv arg res =>
    cases arg with
    | path p =>
      cases res with
      | ok fd' =>
        simp only [stepFdEvent, openSyncTable, touchesFd, fdEventEntry]
        rw [lookupFd_setFd]
        by_cases h : fd' = fd
        · simp [h]
        · have h2 : ¬ fd = fd' := fun hh => h hh.symm
          simp [h, h2]
      | error e => simp [stepFdEvent, openSyncTable, touchesFd]
    | other => cases res <;> simp [stepFdEvent, openSyncTable, touchesFd]
  | closeEv fd' =>
    simp only [stepFdEvent, closeSyncTable, touchesFd, fdEventEntry]
    rw [lookupFd_deleteFd]
    by_cases h : fd' = fd
    · simp [h]
    · have h2 : ¬ fd = fd' := fun hh => h hh.symm
      simp [h, h2]

theorem lookupFd_foldl (fd : Nat) (es : List FdEvent) : ∀ t : FdTable,
    lookupFd (List.foldl stepFdEvent t es) fd =
      ((es.reverse.find? (touchesFd fd)).map fdEventEntry).getD (lookupFd t fd) := by
  induction es with
  | nil => intro t; simp
  | cons e es ih =>
    intro t
    simp only [List.foldl_cons, List.reverse_cons, List.find?_append]
    rw [ih, lookupFd_stepFdEvent]
    cases hf : es.reverse.find? (touchesFd fd) with
    | some e' => simp [Option.or]
    | none =>
      cases ht : touchesFd fd e <;> simp [List.find?, ht, Option.or]

/-! ## Claim theorems -/

/-- **C1.** For every write call on a file descriptor whose recorded path does
not end with `.vue.js` (or with no recorded path, or a non-string payload),
the wrapped `writeSync` delegates to the real write with identical arguments,
performs no other native call, leaves the module state untouched and returns
the real write's result unchanged. -/
theorem writeSync_passthrough (env : Env) (st : MState) (fd : Nat) (data : Data)
    (rest : List Int)
    (h : lookupFd st.fdToPath fd = none ∨
      (∃ fp, lookupFd st.fdToPath fd = some fp ∧ endsWithVueJs fp = false) ∨
      data = Data.buf) :
    wrappedWriteSync env st fd data rest = (st, delegateWrite env fd data rest) := by
  rcases h with h | ⟨fp, hfp, hend⟩ | h
  · simp [wrappedWriteSync, h]
  · cases data <;> simp [wrappedWriteSync, hfp, hend]
  · subst h
    cases hl : lookupFd st.fdToPath fd <;> simp [wrappedWriteSync, hl]

/-- Witness for C1: a descriptor with no recorded path passes through. -/
theorem writeSync_passthrough_witness :
    (lookupFd ([] : FdTable) 1 = none ∨
      (∃ fp, lookupFd ([] : FdTable) 1 = some fp ∧ endsWithVueJs fp = false) ∨
      Data.str "x" = Data.buf) ∧
    wrappedWriteSync sampleEnv ⟨[], []⟩ 1 (.str "x") [] =
      (⟨[], []⟩, delegateWrite sampleEnv 1 (.str "x") []) :=
  ⟨Or.inl rfl, writeSync_passthrough sampleEnv ⟨[], []⟩ 1 (.str "x") [] (Or.inl rfl)⟩

/-- **C7.** Source maps are enabled iff the resolved configuration's
`compilerOptions.sourceMap` is literally the boolean `true`, or no
configuration record is obtained at all (then the policy defaults to true);
any other value of the option yields `false`. -/
theorem sourceMap_policy (env : Env) (c : Cache) (f : String) :
    ((shouldGenerateSourceMap env c f).1 = true ↔
      ((getTsConfigPaths env c f).1 = none ∨
        ∃ r, (getTsConfigPaths env c f).1 = some r ∧ r.sourceMap = true)) ∧
    (∀ tp content j co r, env.readFile tp = .ok content →
      env.parse (stripComments content) = .ok j →
      jMember j "compilerOptions" = some co → jTruthy co = true →
      getTsConfigPathsFile env tp = some r →
      (r.sourceMap = true ↔ jMember co "sourceMap" = some (Json.bool true))) := by
  constructor
  · cases h : (getTsConfigPaths env c f).1 with
    | none => simp [shouldGenerateSourceMap, h]
    | some r => simp [shouldGenerateSourceMap, h]
  · intro tp content j co r hread hparse hco hcoT hfile
    simp only [getTsConfigPathsFile, hread, hparse] at hfile
    cases j with
    | obj fields =>
      simp only [hco, hcoT, if_true] at hfile
      rcases h1 : resolveDirOpt (pathDirname tp) (jMember co "outDir") with _ | o
      · simp [h1] at hfile
      · rcases h2 : resolveDirOpt (pathDirname tp) (jMember co "rootDir") with _ | o2
        · simp [h1, h2] at hfile
        · simp only [h1, h2, Option.some.injEq] at hfile
          subst hfile
          exact jIsTrue_iff _
    | null => exact absurd hco (by simp [jMember])
    | bool b => exact absurd hco (by simp [jMember])
    | num n => exact absurd hco (by simp [jMember])
    | str s => exact absurd hco (by simp [jMember])
    | arr xs => exact absurd hco (by simp [jMember])

/-- Witness for C7: with `"sourceMap": true` in the sample configuration,
source maps are enabled. -/
theorem sourceMap_policy_witness :
    (shouldGenerateSourceMap sampleEnv [] "/p/dist/Foo.vue.js").1 = true :=
  (sourceMap_policy sampleEnv [] "/p/dist/Foo.vue.js").1.mpr
    (Or.inr ⟨⟨"/p/dist", "/p/src", true⟩, rfl, rfl⟩)

/-- **C5.** With a resolved configuration: an output path that does not begin
with the configured `outDir` gets the naive fallback (trailing three
characters stripped, no directory rewrite); a path that does begin with
`outDir` gets the `outDir`-to-`rootDir` re-rooting. -/
theorem resolveVueFilePath_outDir_gate (env : Env) (c : Cache) (f : String)
    (tp : TsPaths) (h : (getTsConfigPaths env c f).1 = some tp) :
    (strStartsWith f tp.outDir = false →
      (resolveVueFilePath env c f).1 = some (strDropRight f 3)) ∧
    (strStartsWith f tp.outDir = true →
      (resolveVueFilePath env c f).1 =
        some (strDropRight
          (pathJoin tp.rootDir (pathRelative tp.outDir f)) 3)) := by
  constructor <;> intro hs <;> simp [resolveVueFilePath, h, hs]

/-- Witness for C5: an output path outside the configured `outDir` maps to
itself minus the `.js` suffix. -/
theorem resolveVueFilePath_outDir_gate_witness :
    (getTsConfigPaths (trivEnv (fun p => p == "/elsewhere/tsconfig.json"))
        [("/elsewhere/tsconfig.json", ⟨"/out", "/srcroot", false⟩)]
        "/elsewhere/Foo.vue.js").1 = some ⟨"/out", "/srcroot", false⟩ ∧
    (resolveVueFilePath (trivEnv (fun p => p == "/elsewhere/tsconfig.json"))
        [("/elsewhere/tsconfig.json", ⟨"/out", "/srcroot", false⟩)]
        "/elsewhere/Foo.vue.js").1 = some "/elsewhere/Foo.vue" :=
  ⟨rfl,
    (resolveVueFilePath_outDir_gate (trivEnv (fun p => p == "/elsewhere/tsconfig.json"))
      [("/elsewhere/tsconfig.json", ⟨"/out", "/srcroot", false⟩)]
      "/elsewhere/Foo.vue.js" ⟨"/out", "/srcroot", false⟩ rfl).1 rfl⟩

/-- **C9.** The open-handle table maps a handle to a path exactly when the
last table-relevant event for that handle is a successful open with a string
path (entries are created on successful string-path open, removed on close);
in particular a write after a close and a re-open of the same id is
attributed to the re-open's path, never the stale one (the wrapped
`writeSync` reads the table through the same `lookupFd`). -/
theorem fdTable_attribution (es : List FdEvent) (fd : Nat) :
    lookupFd (runFdTrace es) fd =
      ((es.reverse.find? (touchesFd fd)).map fdEventEntry).getD none := by
  have h := lookupFd_foldl fd es []
  rw [runFdTrace] at *
  simpa [lookupFd] using h

/-- **C2.** When the component compiler reports at least one diagnostic
error, the wrapped write behaves exactly like the plain delegated write of
the original payload: the placeholder receives the original data verbatim
and no style, style-map or script-map file is written (the effect list of
`delegateWrite` contains only the original write). -/
theorem writeSync_compileErrors_writesOriginal (env : Env) (st : MState)
    (fd : Nat) (s : String) (rest : List Int) (fp vfp vueCode : String)
    (c1 : Cache) (res : CompileResult)
    (hfp : lookupFd st.fdToPath fd = some fp)
    (hend : endsWithVueJs fp = true)
    (hres : resolveVueFilePath env st.tsconfigCache fp = (some vfp, c1))
    (hvfp : vfp ≠ "")
    (hex : env.fExists vfp = true)
    (hread : env.readFile vfp = .ok vueCode)
    (hcomp : env.compile vueCode
      (mkCompileOptions (pathDirname vfp) (pathBasename vfp)
        (shouldGenerateSourceMap env c1 fp).1) = .ok res)
    (herr : res.errors ≠ []) :
    (wrappedWriteSync env st fd (.str s) rest).2 =
      delegateWrite env fd (.str s) rest := by
  cases hw : env.nativeWrite fd (Data.str s) rest <;>
    simp [wrappedWriteSync, hfp, hend, hres, hvfp, tryBody, hex, hread, hcomp,
      herr, delegateWrite, hw]

def envErrCompile (code : String) (_ : CompileOptions) : Except String CompileResult :=
  if code = "<template/>" then
    .ok { js := { code := "JSCODE", sourceMap := none }, css := [],
          errors := ["boom"] }
  else .error "unexpected source"

def envErr : Env := { sampleEnv with compile := envErrCompile }

/-- Witness for C2: a compilation with one diagnostic error writes the
original payload and nothing else. -/
theorem writeSync_compileErrors_witness :
    (["boom"] : List String) ≠ [] ∧
    (wrappedWriteSync envErr ⟨[(5, "/p/dist/Foo.vue.js")], []⟩ 5 (.str "orig") []).2 =
      delegateWrite envErr 5 (.str "orig") [] :=
  ⟨by simp,
    writeSync_compileErrors_writesOriginal envErr ⟨[(5, "/p/dist/Foo.vue.js")], []⟩
      5 "orig" [] "/p/dist/Foo.vue.js" "/p/src/Foo.vue" "<template/>"
      [("/p/tsconfig.json", ⟨"/p/dist", "/p/src", true⟩)]
      { js := { code := "JSCODE", sourceMap := none }, css := [], errors := ["boom"] }
      rfl rfl rfl (by simp) rfl rfl rfl (by simp)⟩

/-- **C4.** Any exception thrown inside the `try` block (reading the source,
compiling, writing the extra artifacts, or the substituted write itself) is
caught: the wrapped write then performs the real write with the original
unmodified payload as its final native call and returns exactly that real
write's result — no exception of the interception logic escapes. -/
theorem writeSync_catchesExceptions (env : Env) (st : MState) (fd : Nat)
    (s : String) (rest : List Int) (fp vfp : String) (c1 : Cache) (err : String)
    (hfp : lookupFd st.fdToPath fd = some fp)
    (hend : endsWithVueJs fp = true)
    (hres : resolveVueFilePath env st.tsconfigCache fp = (some vfp, c1))
    (hvfp : vfp ≠ "")
    (htb : (tryBody env c1 fd s rest fp vfp).1 = .error err) :
    (wrappedWriteSync env st fd (.str s) rest).2 =
      ((tryBody env c1 fd s rest fp vfp).2.2 ++ (delegateWrite env fd (.str s) rest).1,
       env.nativeWrite fd (.str s) rest) := by
  cases hw : env.nativeWrite fd (Data.str s) rest <;>
    simp [wrappedWriteSync, hfp, hend, hres, hvfp, htb, delegateWrite, hw]

def envExcRead (p : String) : Except String String :=
  if p = "/p/tsconfig.json" then .ok sampleTsConfigContent else .error "EACCES"

def envExc : Env := { sampleEnv with readFile := envExcRead }

/-- Witness for C4: when reading the source throws, the original payload is
written and the real write's result is returned. -/
theorem writeSync_catchesExceptions_witness :
    (tryBody envExc [("/p/tsconfig.json", ⟨"/p/dist", "/p/src", true⟩)] 5 "orig" []
        "/p/dist/Foo.vue.js" "/p/src/Foo.vue").1 = .error "EACCES" ∧
    (wrappedWriteSync envExc ⟨[(5, "/p/dist/Foo.vue.js")], []⟩ 5 (.str "orig") []).2 =
      ([Effect.writeFd 5 (.str "orig") []], .ok 1) :=
  ⟨rfl, by
    have h := writeSync_catchesExceptions envExc ⟨[(5, "/p/dist/Foo.vue.js")], []⟩
      5 "orig" [] "/p/dist/Foo.vue.js" "/p/src/Foo.vue"
      [("/p/tsconfig.json", ⟨"/p/dist", "/p/src", true⟩)] "EACCES"
      rfl rfl rfl (by simp) rfl
    exact h⟩

theorem strDropRight3_ne_empty (f : String) (h : endsWithVueJs f = true) :
    strDropRight f 3 ≠ "" := by
  have hsuf : (".vue.js" : String).data <:+ f.data := by
    simpa [endsWithVueJs, strEndsWith, List.isSuffixOf_iff_suffix] using h
  have h7 : (".vue.js" : String).data.length = 7 := rfl
  have hlen : 7 ≤ f.data.length := h7 ▸ hsuf.length_le
  intro hc
  have hdata : f.data.take (f.data.length - 3) = [] := congrArg String.data hc
  rcases List.take_eq_nil_iff.mp hdata with h0 | h0
  · omega
  · rw [h0] at hlen; simp at hlen

/-- **C10 (amended).** `resolveVueFilePath` never returns null: both fallback
branches and the re-rooting branch produce a string, so the null half of the
interceptor's `!vueFilePath` guard cannot fire.  Moreover, whenever no
configuration resolves or the output path does not begin with the resolved
`outDir`, the returned fallback string is nonempty for a placeholder path,
so those intercepted writes do proceed past the guard.  (The guard is JS
falsiness, and the re-rooting branch can return the empty string — see the
counterexample — so the original claim's "the error branch is unreachable"
does not hold in general.) -/
theorem resolveVueFilePath_nonNull (env : Env) (c : Cache) (f : String) :
    (∃ s, (resolveVueFilePath env c f).1 = some s) ∧
    (endsWithVueJs f = true →
      ((getTsConfigPaths env c f).1 = none ∨
        ∃ tp, (getTsConfigPaths env c f).1 = some tp ∧
          strStartsWith f tp.outDir = false) →
      ∃ s, (resolveVueFilePath env c f).1 = some s ∧ s ≠ "") := by
  constructor
  · rcases h : (getTsConfigPaths env c f).1 with _ | tp
    · exact ⟨strDropRight f 3, by simp [resolveVueFilePath, h]⟩
    · cases hs : strStartsWith f tp.outDir
      · exact ⟨strDropRight f 3, by simp [resolveVueFilePath, h, hs]⟩
      · exact ⟨strDropRight (pathJoin tp.rootDir (pathRelative tp.outDir f)) 3,
          by simp [resolveVueFilePath, h, hs]⟩
  · intro hv hcase
    rcases hcase with h | ⟨tp, h, hs⟩
    · exact ⟨strDropRight f 3, by simp [resolveVueFilePath, h],
        strDropRight3_ne_empty f hv⟩
    · exact ⟨strDropRight f 3, by simp [resolveVueFilePath, h, hs],
        strDropRight3_ne_empty f hv⟩

/-- Witness for C10 (amended): with no configuration anywhere, a placeholder
path maps to the nonempty fallback. -/
theorem resolveVueFilePath_nonNull_witness :
    endsWithVueJs "/q/Foo.vue.js" = true ∧
    (∃ s, (resolveVueFilePath (trivEnv (fun _ => false)) [] "/q/Foo.vue.js").1 =
        some s ∧ s ≠ "") :=
  ⟨rfl, (resolveVueFilePath_nonNull (trivEnv (fun _ => false)) [] "/q/Foo.vue.js").2
    rfl (Or.inl rfl)⟩

def envC10TsConfig : String :=
  "\x7b \"compilerOptions\": \x7b \"outDir\": \"/o/f.vue.js\", \"rootDir\": \"/x\" \x7d \x7d"

def envC10Json : Json :=
  Json.obj [("compilerOptions", Json.obj
    [("outDir", Json.str "/o/f.vue.js"), ("rootDir", Json.str "/x")])]

def envC10 : Env where
  nativeOpen := fun _ => .ok 9
  nativeWrite := fun _ _ _ => .ok 1
  nativeClose := fun _ => .ok ()
  fExists := fun p => p == "/o/tsconfig.json" || p == ""
  readFile := fun p =>
    if p = "/o/tsconfig.json" then .ok envC10TsConfig
    else if p = "" then .ok "V" else .error "ENOENT"
  parse := fun s =>
    if s = stripComments envC10TsConfig then .ok envC10Json else .error "SyntaxError"
  stringify := fun _ => "SM"
  compile := fun code _ =>
    if code = "V" then
      .ok { js := { code := "COMPILED", sourceMap := none }, css := [], errors := [] }
    else .error "unexpected source"

/-- **C10 counterexample.** A configuration whose resolved `outDir` equals
the placeholder path itself makes `resolveVueFilePath` return the (JS-falsy)
empty string, so the interceptor's unresolved-mapping branch *is* taken: the
original payload is written unchanged even though the pipeline, had it
proceeded to the source-existence check, would have substituted the compiled
output — refuting "the error branch is unreachable, and every intercepted
placeholder write proceeds to the source-existence check". -/
theorem resolveVueFilePath_falsy_cx :
    (resolveVueFilePath envC10 [] "/o/f.vue.js").1 = some "" ∧
    endsWithVueJs "/o/f.vue.js" = true ∧
    (wrappedWriteSync envC10 ⟨[(3, "/o/f.vue.js")], []⟩ 3 (.str "orig") []).2 =
      ([Effect.writeFd 3 (.str "orig") []], .ok 1) ∧
    (tryBody envC10 [("/o/tsconfig.json", ⟨"/o/f.vue.js", "/x", false⟩)] 3 "orig" []
        "/o/f.vue.js" "").2.2 = [Effect.writeFd 3 (.str "COMPILED") []] :=
  ⟨rfl, rfl, rfl, rfl⟩

/-! ### Path algebra for the re-rooting claim -/

theorem isPrefixOf_append_self (l₁ l₂ : List Char) :
    l₁.isPrefixOf (l₁ ++ l₂) = true := by
  induction l₁ with
  | nil => simp [List.isPrefixOf]
  | cons c t ih => simp [List.isPrefixOf, ih]

theorem splitSegsAux_append_slash (b : List Char) :
    ∀ (a acc : List Char),
      splitSegsAux (a ++ '/' :: b) acc = splitSegsAux a acc ++ splitSegsAux b [] := by
  intro a
  induction a with
  | nil =>
    intro acc
    by_cases hacc : acc = [] <;> simp [splitSegsAux, hacc]
  | cons c a ih =>
    intro acc
    by_cases hc : c = '/'
    · by_cases hacc : acc = [] <;> simp [splitSegsAux, hc, hacc, ih]
    · simp [splitSegsAux, hc, ih]

theorem splitSegsAux_no_slash :
    ∀ (l acc : List Char), '/' ∉ l →
      splitSegsAux l acc =
        if acc.reverse ++ l = [] then [] else [acc.reverse ++ l] := by
  intro l
  induction l with
  | nil =>
    intro acc _
    by_cases hacc : acc = [] <;> simp [splitSegsAux, hacc]
  | cons c l ih =>
    intro acc h
    have hc : ¬ c = '/' := fun hh => h (hh ▸ List.mem_cons_self c l)
    have hl : '/' ∉ l := fun hh => h (List.mem_cons_of_mem c hh)
    rw [splitSegsAux]
    simp only [if_neg hc]
    rw [ih (c :: acc) hl]
    simp

theorem split_joinSegs : ∀ segs : List (List Char), segs ≠ [] →
    (∀ s ∈ segs, s ≠ [] ∧ '/' ∉ s) →
    splitSegsData (joinSegsData segs) = segs := by
  intro segs
  induction segs with
  | nil => intro h; exact absurd rfl h
  | cons s rest ih =>
    intro _ hclean
    rcases rest with _ | ⟨s2, rest⟩
    · have hs := hclean s (by simp)
      rw [joinSegsData, splitSegsData, splitSegsAux_no_slash s [] hs.2]
      simp [hs.1]
    · have hs := hclean s (by simp)
      rw [show joinSegsData (s :: s2 :: rest) = s ++ '/' :: joinSegsData (s2 :: rest)
          from rfl]
      rw [splitSegsData, splitSegsAux_append_slash]
      rw [splitSegsAux_no_slash s [] hs.2]
      have hrest := ih (by simp) (fun x hx => hclean x (List.mem_cons_of_mem s hx))
      rw [splitSegsData] at hrest
      simp [hs.1, hrest]

theorem dropCommonSegs_append : ∀ xs ys : List (List Char),
    dropCommonSegs xs (xs ++ ys) = ([], ys) := by
  intro xs ys
  induction xs with
  | nil => rfl
  | cons x xs ih => simp [dropCommonSegs, ih]

theorem joinSegs_ne_nil (s : List Char) (segs : List (List Char)) (hs : s ≠ []) :
    joinSegsData (s :: segs) ≠ [] := by
  cases segs with
  | nil => simpa [joinSegsData] using hs
  | cons s2 rest => simp [joinSegsData]

/-- **C3.** With a resolved configuration `(outDir, rootDir)` and an output
path properly under `outDir` (i.e. `outDir ++ "/" ++ rel` for a clean
relative segment path `rel`), `resolveVueFilePath` computes the output
path's position relative to `outDir`, re-roots it under `rootDir`, and
strips the trailing three-character script extension:
the result is `rootDir ++ "/" ++ rel` minus its last three characters. -/
theorem resolveVueFilePath_reroot (env : Env) (c : Cache)
    (outDir rootDir : String) (sm : Bool) (segs : List (List Char))
    (hsegs : segs ≠ [])
    (hclean : ∀ s ∈ segs, s ≠ [] ∧ '/' ∉ s)
    (hroot : rootDir.data ≠ [])
    (hrootSl : rootDir.data.getLast? ≠ some '/')
    (hcfg : (getTsConfigPaths env c (outDir ++ "/" ++ segsToPath segs)).1 =
      some ⟨outDir, rootDir, sm⟩) :
    (resolveVueFilePath env c (outDir ++ "/" ++ segsToPath segs)).1 =
      some (strDropRight (rootDir ++ "/" ++ segsToPath segs) 3) := by
  have hdata : (outDir ++ "/" ++ segsToPath segs).data
      = outDir.data ++ '/' :: (segsToPath segs).data := by
    simp [String.data_append]
  have hpre : strStartsWith (outDir ++ "/" ++ segsToPath segs) outDir = true := by
    have h := isPrefixOf_append_self outDir.data ('/' :: (segsToPath segs).data)
    rw [strStartsWith, hdata]
    exact h
  have h1 : splitSegsData (outDir ++ "/" ++ segsToPath segs).data
      = splitSegsData outDir.data ++ segs := by
    rw [hdata, splitSegsData, splitSegsAux_append_slash]
    rw [show (segsToPath segs).data = joinSegsData segs from rfl]
    have := split_joinSegs segs hsegs hclean
    rw [splitSegsData] at this
    rw [this, ← splitSegsData]
  have hrel : pathRelative outDir (outDir ++ "/" ++ segsToPath segs) = segsToPath segs := by
    simp only [pathRelative, h1, dropCommonSegs_append]
    simp [segsToPath]
  have hb : (segsToPath segs).data ≠ [] := by
    rcases segs with _ | ⟨s, rest⟩
    · exact absurd rfl hsegs
    · have hs := (hclean s (by simp)).1
      simpa [segsToPath] using joinSegs_ne_nil s rest hs
  have hj : pathJoin rootDir (segsToPath segs) = rootDir ++ "/" ++ segsToPath segs := by
    rw [pathJoin, if_neg hroot, if_neg hb, if_neg hrootSl]
    exact String.ext (by simp [String.data_append])
  simp [resolveVueFilePath, hcfg, hpre, hrel, hj]

def envC3 : Env := trivEnv (fun p => p == "dist/tsconfig.json")

def cacheC3 : Cache := [("dist/tsconfig.json", ⟨"dist", "src", true⟩)]

/-- Witness for C3: the spec's round trip — with `outDir = dist`,
`rootDir = src`, the output path `dist/a/b/Foo.vue.js` maps to exactly
`src/a/b/Foo.vue`. -/
theorem resolveVueFilePath_reroot_witness :
    ("dist" ++ "/" ++
        segsToPath [['a'], ['b'], ['F','o','o','.','v','u','e','.','j','s']]) =
      "dist/a/b/Foo.vue.js" ∧
    (resolveVueFilePath envC3 cacheC3 "dist/a/b/Foo.vue.js").1 =
      some "src/a/b/Foo.vue" :=
  ⟨rfl, by
    have h := resolveVueFilePath_reroot envC3 cacheC3 "dist" "src" true
      [['a'], ['b'], ['F','o','o','.','v','u','e','.','j','s']]
      (by simp) (by decide) (by decide) (by decide) rfl
    exact h⟩

/-- The spec's wording of the directory extraction: a present (string)
option is resolved against the configuration file's directory, an absent
one defaults to that directory. -/
def specResolvedDir (projectRoot : String) (v : Option Json) : String :=
  match v with
  | some (Json.str s) => pathResolve projectRoot s
  | _ => projectRoot

/-- **C8.** For a configuration file found by the walk (not yet cached)
whose content is valid JSON after removal of block and line comments
(with a truthy `compilerOptions` whose `outDir`/`rootDir`, when specified,
are nonempty strings), the resolver strips the comments, parses the
remainder, and returns the settings record: `outDir`/`rootDir` resolved
against the configuration file's directory (defaulting to that directory
when unspecified) and the extracted `sourceMap` flag. -/
theorem getTsConfigPaths_extraction (env : Env) (c : Cache)
    (f tp content : String) (j co : Json)
    (hfind : findTsConfig env.fExists f = some tp)
    (hcache : cacheLookup c tp = none)
    (hread : env.readFile tp = .ok content)
    (hparse : env.parse (stripComments content) = .ok j)
    (hco : jMember j "compilerOptions" = some co)
    (hcoT : jTruthy co = true)
    (hoT : jMember co "outDir" = none ∨
      ∃ s, jMember co "outDir" = some (Json.str s) ∧ s ≠ "")
    (hrT : jMember co "rootDir" = none ∨
      ∃ s, jMember co "rootDir" = some (Json.str s) ∧ s ≠ "") :
    (getTsConfigPaths env c f).1 =
      some ⟨specResolvedDir (pathDirname tp) (jMember co "outDir"),
            specResolvedDir (pathDirname tp) (jMember co "rootDir"),
            jIsTrue (jMember co "sourceMap")⟩ := by
  have hfile : getTsConfigPathsFile env tp =
      some ⟨specResolvedDir (pathDirname tp) (jMember co "outDir"),
            specResolvedDir (pathDirname tp) (jMember co "rootDir"),
            jIsTrue (jMember co "sourceMap")⟩ := by
    simp only [getTsConfigPathsFile, hread, hparse]
    cases j with
    | obj fields =>
      simp only [hco, hcoT, if_true]
      rcases hoT with ho | ⟨s, ho, hs⟩ <;> rcases hrT with hr | ⟨s2, hr, hs2⟩
      · simp [resolveDirOpt, ho, hr, specResolvedDir]
      · simp [resolveDirOpt, ho, hr, hs2, specResolvedDir, jTruthy]
      · simp [resolveDirOpt, ho, hr, hs, specResolvedDir, jTruthy]
      · simp [resolveDirOpt, ho, hr, hs, hs2, specResolvedDir, jTruthy]
    | null => exact absurd hco (by simp [jMember])
    | bool b => exact absurd hco (by simp [jMember])
    | num n => exact absurd hco (by simp [jMember])
    | str s => exact absurd hco (by simp [jMember])
    | arr xs => exact absurd hco (by simp [jMember])
  simp [getTsConfigPaths, hfind, hcache, hfile]

def envC8Content : String :=
  "\x7b /* opts */\n \"compilerOptions\": \x7b\n  \"outDir\": \"dist\", // out\n  \"rootDir\": \"src\"\n \x7d\n\x7d"

def envC8Json : Json :=
  Json.obj [("compilerOptions", Json.obj
    [("outDir", Json.str "dist"), ("rootDir", Json.str "src")])]

def envC8Read (p : String) : Except String String :=
  if p = "/w/tsconfig.json" then .ok envC8Content else .error "ENOENT"

def envC8Parse (s : String) : Except String Json :=
  if s = stripComments envC8Content then .ok envC8Json else .error "SyntaxError"

def envC8 : Env :=
  { trivEnv (fun p => p == "/w/tsconfig.json") with
    readFile := envC8Read, parse := envC8Parse }

/-- Witness for C8: a commented configuration with `outDir=dist`,
`rootDir=src` under `/w` resolves to `/w/dist`, `/w/src` with source maps
off. -/
theorem getTsConfigPaths_extraction_witness :
    (getTsConfigPaths envC8 [] "/w/dist/App.vue.js").1 =
      some ⟨"/w/dist", "/w/src", false⟩ := by
  have h := getTsConfigPaths_extraction envC8 [] "/w/dist/App.vue.js"
    "/w/tsconfig.json" envC8Content envC8Json
    (Json.obj [("outDir", Json.str "dist"), ("rootDir", Json.str "src")])
    rfl rfl rfl rfl rfl rfl
    (Or.inr ⟨"dist", rfl, by decide⟩) (Or.inr ⟨"src", rfl, by decide⟩)
  exact h

/-! ### The directory walk of `findTsConfig` -/

theorem dirnameData_cases (l : List Char) :
    dirnameData l = ['.'] ∨ dirnameData l = ['/'] ∨
      (dirnameData l).length + 1 ≤ l.length := by
  rw [dirnameData]
  split
  · left; rfl
  · right; left; rfl
  · rename_i c rest heq
    right; right
    have hsuf : l.reverse.dropWhile (· ≠ '/') <:+ l.reverse :=
      List.dropWhile_suffix _
    rw [heq] at hsuf
    have hlen := hsuf.length_le
    simp only [List.length_cons, List.length_reverse] at hlen ⊢
    omega

theorem mDirData_lt (l : List Char) (h : dirnameData l ≠ l) :
    mDirData (dirnameData l) < mDirData l := by
  have hm : mDirData l = l.length + 2 := by simp [mDirData, h]
  rcases dirnameData_cases l with h1 | h1 | h1
  · rw [h1]
    have hdot : mDirData ['.'] = 1 := by decide
    omega
  · rw [h1]
    have hslash : mDirData ['/'] = 1 := by decide
    omega
  · have hub : mDirData (dirnameData l) ≤ (dirnameData l).length + 2 := by
      rw [mDirData]; split <;> omega
    omega

theorem mDir_lt (dir : String) (h : ¬ dir = pathDirname dir) :
    mDir (pathDirname dir) < mDir dir := by
  apply mDirData_lt
  intro hd
  exact h (String.ext hd.symm)

theorem mDir_pos (dir : String) : 1 ≤ mDir dir := by
  rw [mDir, mDirData]
  split
  · rename_i h
    cases hd : dir.data with
    | nil => rw [hd] at h; exact absurd h (by decide)
    | cons c l => simp [hd]
  · omega

theorem findTsConfigLoop_eq_walkChain (ex : String → Bool) :
    ∀ (fuel : Nat) (dir : String),
      findTsConfigLoop ex fuel dir =
        ((walkChainLoop fuel dir).find?
          (fun d => ex (pathJoin d "tsconfig.json"))).map
          (fun d => pathJoin d "tsconfig.json") := by
  intro fuel
  induction fuel with
  | zero => intro dir; rfl
  | succ fuel ih =>
    intro dir
    rw [findTsConfigLoop, walkChainLoop]
    by_cases h : dir = pathDirname dir
    · rw [if_pos h, if_pos h]; rfl
    · rw [if_neg h, if_neg h]
      by_cases he : ex (pathJoin dir "tsconfig.json")
      · simp [List.find?_cons, he]
      · simp [List.find?_cons, he, ih]

theorem walkChainLoop_mem :
    ∀ (fuel : Nat) (dir : String), mDir dir ≤ fuel → ∀ d : String,
      (d ∈ walkChainLoop fuel dir ↔
        ∃ k, d = pathDirname^[k] dir ∧
          pathDirname^[k] dir ≠ pathDirname^[k + 1] dir) := by
  intro fuel
  induction fuel with
  | zero =>
    intro dir hle d
    exact absurd hle (by have := mDir_pos dir; omega)
  | succ fuel ih =>
    intro dir hle d
    rw [walkChainLoop]
    by_cases h : dir = pathDirname dir
    · rw [if_pos h]
      constructor
      · intro hd; exact absurd hd (List.not_mem_nil d)
      · rintro ⟨k, _, hne⟩
        have h1 := Function.iterate_fixed h.symm k
        have h2 := Function.iterate_fixed h.symm (k + 1)
        exact absurd (h1.trans h2.symm) hne
    · rw [if_neg h]
      have hmle : mDir (pathDirname dir) ≤ fuel := by
        have := mDir_lt dir h; omega
      constructor
      · intro hd
        rcases List.mem_cons.mp hd with h0 | h0
        · refine ⟨0, by simpa using h0, ?_⟩
          simpa using fun hh => h hh
        · rcases (ih (pathDirname dir) hmle d).mp h0 with ⟨k, hk, hne⟩
          refine ⟨k + 1, ?_, ?_⟩
          · rw [Function.iterate_succ_apply]; exact hk
          · rw [Function.iterate_succ_apply, Function.iterate_succ_apply]
            exact hne
      · rintro ⟨k, hk, hne⟩
        cases k with
        | zero =>
          simp only [Function.iterate_zero, id_eq] at hk
          exact List.mem_cons.mpr (Or.inl hk)
        | succ k =>
          rw [Function.iterate_succ_apply] at hk
          rw [Function.iterate_succ_apply, Function.iterate_succ_apply] at hne
          exact List.mem_cons.mpr
            (Or.inr ((ih (pathDirname dir) hmle d).mpr ⟨k, hk, hne⟩))

/-- **C6 (amended).** `findTsConfig` walks from the input's containing
directory upward and returns the first level whose `tsconfig.json` exists —
but the walk visits exactly the ancestor directories *strictly below* the
filesystem root (the iterates of `dirname` that are not yet fixed points):
the root itself, where `dirname` is a fixed point, is never probed, so
NotFound is reported exactly when no ancestor strictly below the root
contains `tsconfig.json`. -/
theorem findTsConfig_walk (ex : String → Bool) (f : String) :
    (findTsConfig ex f =
      ((walkChain (pathDirname f)).find?
        (fun d => ex (pathJoin d "tsconfig.json"))).map
        (fun d => pathJoin d "tsconfig.json")) ∧
    (∀ d, d ∈ walkChain (pathDirname f) ↔
      ∃ k, d = pathDirname^[k] (pathDirname f) ∧
        pathDirname^[k] (pathDirname f) ≠ pathDirname^[k + 1] (pathDirname f)) := by
  constructor
  · exact findTsConfigLoop_eq_walkChain ex (mDir (pathDirname f)) (pathDirname f)
  · exact fun d =>
      walkChainLoop_mem (mDir (pathDirname f)) (pathDirname f) (le_refl _) d

/-- **C6 counterexample.** The walk never probes the filesystem root: with
`tsconfig.json` present only at `/`, the resolver reports NotFound for
`/a/b.vue.js`, although `/` — an ancestor directory of the input, reached by
two `dirname` steps — does contain `tsconfig.json`.  This refutes "NotFound
exactly when no ancestor directory on that walk (including the filesystem
root itself) contains tsconfig.json". -/
theorem findTsConfig_root_excluded_cx :
    findTsConfig (fun p => p == "/tsconfig.json") "/a/b.vue.js" = none ∧
    pathDirname (pathDirname "/a/b.vue.js") = "/" ∧
    (fun p => p == "/tsconfig.json") (pathJoin "/" "tsconfig.json") = true :=
  ⟨rfl, rfl, rfl⟩

end VueTscPlus
